import Mathlib

/-!
Verification of the buffering and metrics logic of `streaming_stt.py`.

The script has two verifiable parts:
* `MicrophoneStream` — a producer/consumer audio buffer: a hardware callback
  (`_fill_buffer`) pushes raw frames onto a thread-safe FIFO (`self._buff`),
  `__exit__` stops the stream and pushes a `None` sentinel, and `generator`
  pulls batches of chunks, joining each batch into one yielded buffer.
* `listen_print_loop` — consumes recognition responses, samples CPU/RAM per
  response, persists final transcripts, and writes a rounded metrics summary
  on every exit path (normal end, `KeyboardInterrupt`, via `finally`).

Machine reals (Python floats) are modelled as rationals; raw byte strings as
lists of naturals; the thread-safe queue as a list with front = next dequeue.
-/

set_option autoImplicit false

namespace StreamingSTT

/-- A raw audio frame (`in_data`, a byte string) as a list of byte values. -/
abbrev Chunk := List Nat

/-- An entry of `self._buff`: a real chunk, or `none`, the end-of-stream
sentinel pushed by `__exit__`. -/
abbrev QItem := Option Chunk

/-- A buffer yielded by `generator`: `b"".join(data)`. -/
abbrev Buffer := List Nat

/-- The inner `while True: ... get_nowait()` drain loop of
`MicrophoneStream.generator` (lines 55-62).  `q` is the queue content,
`n` is how many `get_nowait` calls succeed before `queue.Empty` is raised
(the schedule: items still in flight from the callback are not yet visible),
`data` is the accumulated batch.  Returns the final `data`, whether the
sentinel was dequeued (in which case the code `return`s, discarding `data`),
and the remaining queue content. -/
def drain : List QItem → Nat → List Chunk → List Chunk × Bool × List QItem
  | q, 0, data => (data, false, q)
  | [], _ + 1, data => (data, false, [])
  | Option.some c :: q, n + 1, data => drain q n (data ++ [c])
  | Option.none :: _q, _ + 1, data => (data, true, _q)

/-- A full run of `MicrophoneStream.generator` (lines 49-63) over a queue
content `q`, starting at outer-loop round `i`.  `closed i` is the value of
`self.closed` when round `i` tests the `while not self.closed` condition;
`avail i` is the number of `get_nowait` calls that succeed in round `i`
before `queue.Empty`.  The blocking `get()` on an empty queue with no
further production blocks forever, modelled as `Option.none`; a terminating
run returns `Option.some` of the list of yielded buffers. -/
def genRun (closed : Nat → Bool) (avail : Nat → Nat) (q : List QItem) (i : Nat) :
    Option (List Buffer) :=
  if closed i then Option.some []
  else
    match q with
    | [] => Option.none
    | Option.none :: _ => Option.some []
    | Option.some c :: q' =>
      if (drain q' (avail i) [c]).2.1 then Option.some []
      else
        match genRun closed avail (drain q' (avail i) [c]).2.2 (i + 1) with
        | Option.none => Option.none
        | Option.some bufs => Option.some ((drain q' (avail i) [c]).1.flatten :: bufs)
termination_by q.length
decreasing_by
  have h : ∀ (l : List QItem) (n : Nat) (d : List Chunk),
      (drain l n d).2.2.length ≤ l.length := by
    intro l
    induction l with
    | nil => intro n d; cases n <;> simp [drain]
    | cons x xs ih =>
      intro n d
      cases n with
      | zero => simp [drain]
      | succ m =>
        cases x with
        | none => simp [drain]
        | some c =>
          calc (drain (Option.some c :: xs) (m + 1) d).2.2.length
              = (drain xs m (d ++ [c])).2.2.length := by simp [drain]
            _ ≤ xs.length := ih m (d ++ [c])
            _ ≤ xs.length + 1 := Nat.le_succ _
  exact Nat.lt_succ_of_le (h q' (avail i) [c])

/-! ### Producer/consumer state machine for the frame queue

`_fill_buffer` (lines 45-47) enqueues unconditionally, but it is only invoked
while the pyaudio stream is running; `__exit__` (lines 38-43) first runs
`stop_stream()`/`close()` (after which the callback no longer fires) and sets
`self.closed = True`, and only then enqueues the `None` sentinel, exactly
once.  The consumer dequeues from the front. -/

/-- State of the `MicrophoneStream` buffer system: whether the pyaudio
stream is still running (so `_fill_buffer` can fire), the `self.closed`
flag, the queue content (front = next dequeue), and whether `__exit__`
has already enqueued the sentinel. -/
structure BufState where
  active : Bool
  closed : Bool
  q : List QItem
  sentinelPut : Bool
deriving DecidableEq, Repr

/-- Events of the buffer system: a callback delivery of a frame (only while
the stream runs), the `stop_stream(); close(); closed = True` part of
`__exit__`, the `self._buff.put(None)` that follows it, and a dequeue by
the consumer. -/
inductive BufStep : BufState → BufState → Prop
  | fill (c : Chunk) (s : BufState) (h : s.active = true) :
      BufStep s { s with q := s.q ++ [Option.some c] }
  | stop (s : BufState) (h : s.active = true) :
      BufStep s { s with active := false, closed := true }
  | putSentinel (s : BufState) (h : s.active = false) (h2 : s.sentinelPut = false) :
      BufStep s { s with q := s.q ++ [Option.none], sentinelPut := true }
  | deq (x : QItem) (q' : List QItem) (s : BufState) (h : s.q = x :: q') :
      BufStep s { s with q := q' }

/-- Initial state after `__enter__`: stream running, `closed = False`,
empty queue, sentinel not yet enqueued. -/
def bufInit : BufState :=
  { active := true, closed := false, q := [], sentinelPut := false }

/-- States reachable from `bufInit` by `BufStep` events. -/
inductive Reach : BufState → Prop
  | init : Reach bufInit
  | step {s s' : BufState} : Reach s → BufStep s s' → Reach s'

/-- Inductive invariant of the buffer system: once the sentinel has been
enqueued the stream is stopped, and the queue is always a run of real
chunks optionally followed by a single trailing sentinel (the latter only
after `__exit__` ran). -/
def BufInv (s : BufState) : Prop :=
  (s.sentinelPut = true → s.active = false) ∧
  ((∃ cs : List Chunk, s.q = cs.map Option.some) ∨
    (s.sentinelPut = true ∧ ∃ cs : List Chunk, s.q = cs.map Option.some ++ [Option.none]))

/-! ### `listen_print_loop` -/

/-- One alternative of a recognition result (`result.alternatives[k]`). -/
structure SpeechAlt where
  transcript : String
deriving DecidableEq, Repr

/-- One streaming recognition result: its alternatives, the `is_final`
flag, and `result_end_time.total_seconds()` as a rational. -/
structure SpeechResult where
  alternatives : List SpeechAlt
  is_final : Bool
  result_end_time : ℚ
deriving DecidableEq, Repr

/-- One streaming recognition response (`response.results`). -/
structure SpeechResponse where
  results : List SpeechResult
deriving DecidableEq, Repr

/-- The environment of one `listen_print_loop` session: the values returned
by `process.cpu_percent`, `process.memory_percent` and
`process.memory_info().rss / 2^20` at response `i`, the `time.time()`
reading `now` taken while processing response `i`, the `time.time()`
reading at `session_start = time.time()`, and the `time.time()` reading
taken in the `finally` block. -/
structure Env where
  cpu : Nat → ℚ
  ram : Nat → ℚ
  mem : Nat → ℚ
  now : Nat → ℚ
  sessionStart : ℚ
  endTime : ℚ

/-- The mutable state of `listen_print_loop` (lines 72-81): the sample
lists, the running peak memory, the cumulative transcribed duration, and
the lines written to the transcript file `f` so far (each written with a
trailing newline and flushed). -/
structure LoopState where
  cpu_snapshots : List ℚ
  ram_snapshots : List ℚ
  latency_samples : List ℚ
  peak_memory : ℚ
  total_transcribed_time : ℚ
  fileLines : List String
deriving DecidableEq, Repr

/-- Loop state right after `open(output_file, "w")`: all accumulators
empty, and the transcript file truncated to empty. -/
def initState : LoopState :=
  { cpu_snapshots := [], ram_snapshots := [], latency_samples := []
  , peak_memory := 0, total_transcribed_time := 0, fileLines := [] }

/-- The body of `for response in responses` (lines 83-113) for response
number `i`: always sample CPU/RAM/memory and update the peak; `continue`
when there are no results or the first result has no alternatives;
on a final result record latency and duration and append the transcript
line; on an interim result only print to the console (no state change). -/
def processResponse (env : Env) (i : Nat) (response : SpeechResponse)
    (s : LoopState) : LoopState :=
  let cpu := env.cpu i
  let ram := env.ram i
  let memory := env.mem i
  let s1 : LoopState :=
    { s with cpu_snapshots := s.cpu_snapshots ++ [cpu]
           , ram_snapshots := s.ram_snapshots ++ [ram]
           , peak_memory := max s.peak_memory memory }
  let now := env.now i
  match response.results with
  | [] => s1
  | result :: _ =>
    match result.alternatives with
    | [] => s1
    | alt :: _ =>
      let transcript := alt.transcript
      if result.is_final then
        let duration := result.result_end_time
        let latency := now - env.sessionStart - duration
        { s1 with latency_samples := s1.latency_samples ++ [latency]
                , total_transcribed_time := s1.total_transcribed_time + duration
                , fileLines := s1.fileLines ++ [transcript] }
      else s1

/-- The `for` loop over the responses, with `i` the index of the next
response. -/
def runLoop (env : Env) : List SpeechResponse → Nat → LoopState → LoopState
  | [], _, s => s
  | r :: rs, i, s => runLoop env rs (i + 1) (processResponse env i r s)

/-- Python's `round(x, 2)`: round to 2 decimal places, ties to even
(modelled exactly on rationals; the float representation noise of CPython
is immaterial to every claim considered here). -/
def pyRound2 (x : ℚ) : ℚ :=
  let y := x * 100
  let n : ℤ := Int.floor y
  let f : ℚ := y - n
  let r : ℤ :=
    if f < 1 / 2 then n
    else if 1 / 2 < f then n + 1
    else if n % 2 = 0 then n else n + 1
  (r : ℚ) / 100

/-- The machine-readable summary written to the metrics file (lines
133-142): one numeric value per key. -/
structure Summary where
  processing_time : ℚ
  real_time_factor : ℚ
  avg_latency : ℚ
  peak_memory_mb : ℚ
  avg_cpu_percent : ℚ
  avg_ram_percent : ℚ
deriving DecidableEq, Repr

/-- The `finally` block (lines 118-142): elapsed time, averages guarded by
Python truthiness of the sample lists, real-time factor guarded by
truthiness of `total_transcribed_time`, all rounded to 2 decimals. -/
def finalize (env : Env) (s : LoopState) : Summary :=
  let elapsed_time := env.endTime - env.sessionStart
  let avg_latency : ℚ :=
    if s.latency_samples.isEmpty then 0
    else s.latency_samples.sum / s.latency_samples.length
  let avg_cpu : ℚ :=
    if s.cpu_snapshots.isEmpty then 0
    else s.cpu_snapshots.sum / s.cpu_snapshots.length
  let avg_ram : ℚ :=
    if s.ram_snapshots.isEmpty then 0
    else s.ram_snapshots.sum / s.ram_snapshots.length
  let rtf : ℚ :=
    if s.total_transcribed_time = 0 then 0
    else elapsed_time / s.total_transcribed_time
  { processing_time := pyRound2 elapsed_time
  , real_time_factor := pyRound2 rtf
  , avg_latency := pyRound2 avg_latency
  , peak_memory_mb := pyRound2 s.peak_memory
  , avg_cpu_percent := pyRound2 avg_cpu
  , avg_ram_percent := pyRound2 avg_ram }

/-- The key/value pairs of the JSON object written to the metrics file, in
source order (lines 134-141). -/
def summaryPairs (m : Summary) : List (String × ℚ) :=
  [ ("processing_time", m.processing_time)
  , ("real_time_factor", m.real_time_factor)
  , ("avg_latency", m.avg_latency)
  , ("peak_memory_mb", m.peak_memory_mb)
  , ("avg_cpu_percent", m.avg_cpu_percent)
  , ("avg_ram_percent", m.avg_ram_percent) ]

/-- `listen_print_loop(responses, output_file)` (lines 66-142).
`interruptAfter = Option.some k` models a `KeyboardInterrupt` raised at the
response boundary after the first `k` responses were processed (caught at
line 115, so control proceeds to `finally`); `Option.none` models normal
exhaustion of the response sequence.  `priorTranscript` is the content of
the transcript file before the session: `open(output_file, "w")` discards
it.  Returns the final transcript-file lines and the summary record that
overwrites the metrics file. -/
def listen_print_loop (env : Env) (responses : List SpeechResponse)
    (interruptAfter : Option Nat) (priorTranscript : List String) :
    List String × Summary :=
  let processed :=
    match interruptAfter with
    | Option.none => responses
    | Option.some k => responses.take k
  let s := runLoop env processed 0 initState
  (s.fileLines, finalize env s)

/-! ### Concrete fixtures used by witnesses -/

/-- A fixed session environment for concrete witnesses: constant resource
samples, every `now` reading at 105 s, session start at 100 s, final
reading at 110 s. -/
def envW : Env :=
  { cpu := fun _ => 10, ram := fun _ => 20, mem := fun _ => 50
  , now := fun _ => 105, sessionStart := 100, endTime := 110 }

/-- A response carrying one final result with end timestamp 2 s. -/
def respFinal : SpeechResponse :=
  { results := [{ alternatives := [{ transcript := "hello" }]
                , is_final := true, result_end_time := 2 }] }

/-- A response carrying one interim (non-final) result. -/
def respInterim : SpeechResponse :=
  { results := [{ alternatives := [{ transcript := "he" }]
                , is_final := false, result_end_time := 0 }] }

/-- A response carrying no results. -/
def respEmpty : SpeechResponse := { results := [] }

/-! ### Helper lemmas about `drain` and `genRun` -/

/-- The drain loop never adds queue entries. -/
theorem drain_length_le (l : List QItem) :
    ∀ (n : Nat) (d : List Chunk), (drain l n d).2.2.length ≤ l.length := by
  induction l with
  | nil => intro n d; cases n <;> simp [drain]
  | cons x xs ih =>
    intro n d
    cases n with
    | zero => simp [drain]
    | succ m =>
      cases x with
      | none => simp [drain]
      | some c =>
        calc (drain (Option.some c :: xs) (m + 1) d).2.2.length
            = (drain xs m (d ++ [c])).2.2.length := by simp [drain]
          _ ≤ xs.length := ih m (d ++ [c])
          _ ≤ xs.length + 1 := Nat.le_succ _

/-- Draining a queue of `b` or fewer available chunks (sentinel not yet
visible to `get_nowait`) collects the first `b` chunks in order and leaves
the rest. -/
theorem drain_shape_le (l : List Chunk) :
    ∀ (b : Nat) (d : List Chunk), b ≤ l.length →
      drain (l.map Option.some ++ [Option.none]) b d
        = (d ++ l.take b, false, (l.drop b).map Option.some ++ [Option.none]) := by
  induction l with
  | nil =>
    intro b d hb
    have : b = 0 := Nat.le_zero.mp hb
    subst this
    simp [drain]
  | cons c l ih =>
    intro b d hb
    cases b with
    | zero => simp [drain]
    | succ b' =>
      have step : drain ((c :: l).map Option.some ++ [Option.none]) (b' + 1) d
          = drain (l.map Option.some ++ [Option.none]) b' (d ++ [c]) := by
        simp [drain]
      rw [step, ih b' (d ++ [c]) (by simpa using Nat.succ_le_succ_iff.mp hb)]
      simp

/-- Draining when the sentinel is within reach of the `get_nowait` budget
dequeues every chunk and then the sentinel: the inner loop reports the
sentinel and the accumulated data is discarded by the `return`. -/
theorem drain_shape_gt (l : List Chunk) :
    ∀ (b : Nat) (d : List Chunk), l.length < b →
      drain (l.map Option.some ++ [Option.none]) b d = (d ++ l, true, []) := by
  induction l with
  | nil =>
    intro b d hb
    cases b with
    | zero => omega
    | succ b' => simp [drain]
  | cons c l ih =>
    intro b d hb
    cases b with
    | zero => omega
    | succ b' =>
      have step : drain ((c :: l).map Option.some ++ [Option.none]) (b' + 1) d
          = drain (l.map Option.some ++ [Option.none]) b' (d ++ [c]) := by
        simp [drain]
      rw [step, ih b' (d ++ [c]) (by simpa using Nat.succ_le_succ_iff.mp hb)]
      simp

/-- Every run of the generator yields, in order, exactly the chunks of some
chunk-boundary front segment of the enqueued chunks: bytes are never
reordered or duplicated, but the chunks drained in the same batch as the
sentinel are discarded. -/
theorem genRun_yields_front (n : Nat) :
    ∀ (cs : List Chunk), cs.length ≤ n →
    ∀ (closed : Nat → Bool) (avail : Nat → Nat) (i : Nat),
    ∃ ys k, genRun closed avail (cs.map Option.some ++ [Option.none]) i = Option.some ys ∧
      k ≤ cs.length ∧ ys.flatten = (cs.take k).flatten := by
  induction n with
  | zero =>
    intro cs hlen closed avail i
    have : cs = [] := List.length_eq_zero.mp (Nat.le_zero.mp hlen)
    subst this
    refine ⟨[], 0, ?_, Nat.le_refl _, by simp⟩
    rw [genRun.eq_def]
    cases h : closed i <;> simp [h]
  | succ n ih =>
    intro cs hlen closed avail i
    by_cases hc : closed i = true
    · exact ⟨[], 0, by rw [genRun.eq_def]; simp [hc], Nat.zero_le _, by simp⟩
    · cases cs with
      | nil =>
        refine ⟨[], 0, ?_, Nat.le_refl _, by simp⟩
        rw [genRun.eq_def]
        simp [hc]
      | cons c cs' =>
        by_cases hb : avail i ≤ cs'.length
        · have hd := drain_shape_le cs' (avail i) [c] hb
          have hlen' : (cs'.drop (avail i)).length ≤ n := by
            simp only [List.length_cons] at hlen
            simp only [List.length_drop]
            omega
          obtain ⟨ys', k', hrun', hk', hflat'⟩ :=
            ih (cs'.drop (avail i)) hlen' closed avail (i + 1)
          refine ⟨([c] ++ cs'.take (avail i)).flatten :: ys',
            avail i + k' + 1, ?_, ?_, ?_⟩
          · rw [genRun.eq_def]
            simp only [hc, Bool.false_eq_true, if_false, List.map_cons, List.cons_append]
            rw [hd]
            simp only [List.map_drop] at hrun'
            simp [hrun']
          · rw [List.length_drop] at hk'
            simp only [List.length_cons]
            omega
          · have htake : (c :: cs').take (avail i + k' + 1)
                = c :: (cs'.take (avail i) ++ (cs'.drop (avail i)).take k') := by
              rw [List.take_succ_cons, List.take_add]
            rw [htake]
            simp [hflat', List.flatten_cons, List.flatten_append, List.append_assoc]
        · have hd := drain_shape_gt cs' (avail i) [c] (by omega)
          refine ⟨[], 0, ?_, Nat.zero_le _, by simp⟩
          rw [genRun.eq_def]
          simp only [hc, List.map_cons, List.cons_append, hd]
          simp

/-- Under the schedule in which the sentinel is only ever dequeued by the
blocking `get()` (every `get_nowait` raises `queue.Empty`), each round
yields exactly one chunk and nothing is lost. -/
theorem genRun_avail_zero (cs : List Chunk) :
    ∀ (i : Nat),
      genRun (fun _ => false) (fun _ => 0) (cs.map Option.some ++ [Option.none]) i
        = Option.some cs := by
  induction cs with
  | nil => intro i; rw [genRun.eq_def]; simp
  | cons c cs' ih =>
    intro i
    rw [genRun.eq_def]
    simp [drain, ih (i + 1)]

/-! ### Buffer state machine lemmas -/

/-- The invariant holds initially. -/
theorem bufInv_init : BufInv bufInit :=
  ⟨by simp [bufInit], Or.inl ⟨[], by simp [bufInit]⟩⟩

/-- The invariant is preserved by every event. -/
theorem bufInv_step {s s' : BufState} (hs : BufInv s) (st : BufStep s s') :
    BufInv s' := by
  obtain ⟨h1, h2⟩ := hs
  cases st with
  | fill c s h =>
    refine ⟨?_, ?_⟩
    · intro hp
      exact absurd h (by simp [h1 hp])
    · rcases h2 with ⟨cs, hq⟩ | ⟨hp, _⟩
      · exact Or.inl ⟨cs ++ [c], by simp [hq]⟩
      · exact absurd h (by simp [h1 hp])
  | stop s h =>
    exact ⟨fun _ => rfl, h2⟩
  | putSentinel s h hsp =>
    refine ⟨fun _ => h, ?_⟩
    rcases h2 with ⟨cs, hq⟩ | ⟨hp, _⟩
    · exact Or.inr ⟨rfl, cs, by simp [hq]⟩
    · exact absurd hp (by simp [hsp])
  | deq x q' s hq =>
    refine ⟨h1, ?_⟩
    rcases h2 with ⟨cs, hcs⟩ | ⟨hp, cs, hcs⟩
    · rw [hq] at hcs
      cases cs with
      | nil => simp at hcs
      | cons c0 cs0 =>
        simp only [List.map_cons, List.cons.injEq] at hcs
        exact Or.inl ⟨cs0, hcs.2⟩
    · rw [hq] at hcs
      cases cs with
      | nil =>
        simp only [List.map_nil, List.nil_append, List.cons.injEq] at hcs
        exact Or.inl ⟨[], by simp [hcs.2]⟩
      | cons c0 cs0 =>
        simp only [List.map_cons, List.cons_append, List.cons.injEq] at hcs
        exact Or.inr ⟨hp, cs0, hcs.2⟩

/-- Every reachable state satisfies the invariant. -/
theorem reach_bufInv {s : BufState} (h : Reach s) : BufInv s := by
  induction h with
  | init => exact bufInv_init
  | step _ st ih => exact bufInv_step ih st

/-- In a queue of the invariant's sentinel-terminated shape, nothing
follows the sentinel. -/
theorem sentinel_decomp :
    ∀ (l1 : List QItem) (cs : List Chunk) (l2 : List QItem),
      l1 ++ Option.none :: l2 = cs.map Option.some ++ [Option.none] → l2 = [] := by
  intro l1
  induction l1 with
  | nil =>
    intro cs l2 h
    cases cs with
    | nil => simpa using h
    | cons c cs' => simp at h
  | cons x l1' ih =>
    intro cs l2 h
    cases cs with
    | nil =>
      simp only [List.map_nil, List.nil_append, List.cons_append, List.cons.injEq] at h
      exact absurd h.2 (by simp)
    | cons c cs' =>
      simp only [List.map_cons, List.cons_append, List.cons.injEq] at h
      exact ih cs' l2 h.2

/-- If the sentinel is somewhere in the queue, the drain loop either
dequeues it or leaves it in the remaining queue. -/
theorem drain_sentinel_mem (l : List QItem) :
    ∀ (n : Nat) (d : List Chunk), Option.none ∈ l →
      (drain l n d).2.1 = true ∨ Option.none ∈ (drain l n d).2.2 := by
  induction l with
  | nil => intro n d h; simp at h
  | cons x l' ih =>
    intro n d h
    cases n with
    | zero => exact Or.inr (by simpa [drain] using h)
    | succ m =>
      cases x with
      | none => exact Or.inl (by simp [drain])
      | some c =>
        have hl : Option.none ∈ l' := by simpa using h
        simpa [drain] using ih m (d ++ [c]) hl

/-! ### Claims C1-C3 -/

/-- C1 fails as stated: on the queue holding chunk `[7]` with the sentinel
already visible to the first `get_nowait` (one successful non-blocking get
per round), the generator dequeues `[7]`, then dequeues the sentinel inside
the drain loop, and `return`s without yielding — the chunk is consumed but
never included in any yielded buffer. -/
theorem c1_counterexample :
    ¬ ∀ (closed : Nat → Bool) (avail : Nat → Nat) (cs : List Chunk),
        ∃ ys : List Buffer,
          genRun closed avail (cs.map Option.some ++ [Option.none]) 0 = Option.some ys ∧
          ys.flatten = cs.flatten := by
  intro h
  obtain ⟨ys, hrun, hflat⟩ := h (fun _ => false) (fun _ => 1) [[7]]
  have heval : genRun (fun _ => false) (fun _ => 1)
      (([[7]] : List Chunk).map Option.some ++ [Option.none]) 0 = Option.some [] := by
    simp [genRun, drain]
  rw [heval] at hrun
  obtain rfl : ([] : List Buffer) = ys := Option.some.inj hrun
  simp at hflat

/-- C1 (amended): for every enqueue schedule the generator terminates and
the concatenation of its yielded buffers equals, in original byte order and
without duplication, the concatenation of a chunk-boundary front segment of
the enqueued chunks; chunks dequeued in the same drain batch as the
sentinel are discarded.  When the sentinel is only reached by the blocking
`get()` (no chunk shares its batch), every enqueued chunk is yielded
exactly once, in order. -/
theorem c1_generator_yields_front_segment :
    (∀ (closed : Nat → Bool) (avail : Nat → Nat) (cs : List Chunk),
      ∃ ys k, genRun closed avail (cs.map Option.some ++ [Option.none]) 0 = Option.some ys ∧
        k ≤ cs.length ∧ ys.flatten = (cs.take k).flatten) ∧
    (∀ cs : List Chunk,
      genRun (fun _ => false) (fun _ => 0) (cs.map Option.some ++ [Option.none]) 0
        = Option.some cs) :=
  ⟨fun closed avail cs => genRun_yields_front cs.length cs (Nat.le_refl _) closed avail 0,
   fun cs => genRun_avail_zero cs 0⟩

/-- C2: in every reachable state of the producer/consumer system nothing is
enqueued after the sentinel (it can only ever be the last queue entry), and
the consumer treats a dequeued sentinel as end-of-stream: a blocking `get()`
returning `None` ends the generator run immediately, and a `get_nowait()`
returning `None` makes the drain loop report the sentinel, upon which the
generator `return`s. -/
theorem c2_sentinel_is_last_and_terminal :
    (∀ s : BufState, Reach s →
      ∀ (l1 l2 : List QItem), s.q = l1 ++ Option.none :: l2 → l2 = []) ∧
    (∀ (closed : Nat → Bool) (avail : Nat → Nat) (q : List QItem) (i : Nat),
      closed i = false →
      genRun closed avail (Option.none :: q) i = Option.some []) ∧
    (∀ (q : List QItem) (b : Nat) (d : List Chunk),
      drain (Option.none :: q) (b + 1) d = (d, true, q)) := by
  refine ⟨?_, ?_, ?_⟩
  · intro s hs l1 l2 hq
    obtain ⟨_, h2⟩ := reach_bufInv hs
    rcases h2 with ⟨cs, hcs⟩ | ⟨_, cs, hcs⟩
    · have hmem : Option.none ∈ cs.map Option.some := by
        rw [← hcs, hq]; simp
      simp at hmem
    · exact sentinel_decomp l1 cs l2 (hq.symm.trans hcs)
  · intro closed avail q i hc
    rw [genRun.eq_def]
    simp [hc]
  · intro q b d
    simp [drain]

/-- Witness for C2: the state reached by one callback frame `[3]`, then
`stop_stream()`, then `put(None)` is reachable and its queue has nothing
after the sentinel; dequeuing a sentinel ends a generator run. -/
theorem c2_witness :
    ([] : List QItem) = [] ∧
    genRun (fun _ => false) (fun _ => 0) [Option.none] 0 = Option.some [] := by
  constructor
  · exact c2_sentinel_is_last_and_terminal.1
      { active := false, closed := true, q := [Option.some [3], Option.none],
        sentinelPut := true }
      (Reach.step (Reach.step (Reach.step Reach.init (BufStep.fill [3] bufInit rfl))
        (BufStep.stop _ rfl)) (BufStep.putSentinel _ rfl rfl))
      [Option.some [3]] [] rfl
  · exact c2_sentinel_is_last_and_terminal.2.1 (fun _ => false) (fun _ => 0) [] 0 rfl

/-- C3: on every finite queue content that contains the sentinel, every run
of the generator terminates (no blocking `get()` is ever reached on a queue
that will stay empty), whatever the `closed` flag history and whatever the
`get_nowait` schedule. -/
theorem c3_generator_terminates (q : List QItem) (hq : Option.none ∈ q) :
    ∀ (closed : Nat → Bool) (avail : Nat → Nat) (i : Nat),
      ∃ ys, genRun closed avail q i = Option.some ys := by
  have main : ∀ (n : Nat) (q : List QItem), q.length ≤ n → Option.none ∈ q →
      ∀ (closed : Nat → Bool) (avail : Nat → Nat) (i : Nat),
        ∃ ys, genRun closed avail q i = Option.some ys := by
    intro n
    induction n with
    | zero =>
      intro q hlen hmem closed avail i
      have : q = [] := List.length_eq_zero.mp (Nat.le_zero.mp hlen)
      subst this
      simp at hmem
    | succ n ih =>
      intro q hlen hmem closed avail i
      by_cases hc : closed i = true
      · exact ⟨[], by rw [genRun.eq_def]; simp [hc]⟩
      · cases q with
        | nil => simp at hmem
        | cons x q' =>
          cases x with
          | none => exact ⟨[], by rw [genRun.eq_def]; simp [hc]⟩
          | some c =>
            have hmem' : Option.none ∈ q' := by simpa using hmem
            by_cases hsaw : (drain q' (avail i) [c]).2.1 = true
            · exact ⟨[], by rw [genRun.eq_def]; simp [hc, hsaw]⟩
            · have hrem : Option.none ∈ (drain q' (avail i) [c]).2.2 :=
                (drain_sentinel_mem q' (avail i) [c] hmem').resolve_left hsaw
              have hlen' : (drain q' (avail i) [c]).2.2.length ≤ n := by
                have := drain_length_le q' (avail i) [c]
                simp only [List.length_cons] at hlen
                omega
              obtain ⟨ys', hys'⟩ := ih _ hlen' hrem closed avail (i + 1)
              refine ⟨(drain q' (avail i) [c]).1.flatten :: ys', ?_⟩
              rw [genRun.eq_def]
              simp [hc, hsaw, hys']
  exact main q.length q (Nat.le_refl _) hq

/-- Witness for C3 at a concrete queue content containing the sentinel. -/
theorem c3_witness :
    ∃ ys, genRun (fun _ => false) (fun _ => 1) [Option.some [1], Option.none] 0
      = Option.some ys :=
  c3_generator_terminates [Option.some [1], Option.none] (by simp)
    (fun _ => false) (fun _ => 1) 0

/-! ### Helper lemmas about `listen_print_loop` -/

/-- `round(0, 2) = 0`. -/
theorem pyRound2_zero : pyRound2 0 = 0 := by
  norm_num [pyRound2]

/-- A response with no results, or whose first result has no alternatives,
only contributes its CPU/RAM/memory samples (`continue`). -/
theorem processResponse_skip (env : Env) (i : Nat) (r : SpeechResponse) (s : LoopState)
    (h : r.results = [] ∨
      ∃ result rest, r.results = result :: rest ∧ result.alternatives = []) :
    processResponse env i r s
      = { s with cpu_snapshots := s.cpu_snapshots ++ [env.cpu i]
               , ram_snapshots := s.ram_snapshots ++ [env.ram i]
               , peak_memory := max s.peak_memory (env.mem i) } := by
  rcases h with h | ⟨result, rest, hres, halt⟩
  · simp [processResponse, h]
  · simp [processResponse, hres, halt]

/-- A final first result (with alternatives) contributes its samples, a
latency sample, its duration, and a transcript line. -/
theorem processResponse_final (env : Env) (i : Nat) (r : SpeechResponse) (s : LoopState)
    (result : SpeechResult) (rest : List SpeechResult)
    (alt : SpeechAlt) (arest : List SpeechAlt)
    (hres : r.results = result :: rest) (halt : result.alternatives = alt :: arest)
    (hfin : result.is_final = true) :
    processResponse env i r s
      = { cpu_snapshots := s.cpu_snapshots ++ [env.cpu i]
        , ram_snapshots := s.ram_snapshots ++ [env.ram i]
        , latency_samples := s.latency_samples
            ++ [env.now i - env.sessionStart - result.result_end_time]
        , peak_memory := max s.peak_memory (env.mem i)
        , total_transcribed_time := s.total_transcribed_time + result.result_end_time
        , fileLines := s.fileLines ++ [alt.transcript] } := by
  simp [processResponse, hres, halt, hfin]

/-- Every response contributes exactly one CPU sample, one RAM sample, and
a peak-memory update, whatever else it carries. -/
theorem processResponse_samples (env : Env) (i : Nat) (r : SpeechResponse) (s : LoopState) :
    (processResponse env i r s).cpu_snapshots = s.cpu_snapshots ++ [env.cpu i] ∧
    (processResponse env i r s).ram_snapshots = s.ram_snapshots ++ [env.ram i] ∧
    (processResponse env i r s).peak_memory = max s.peak_memory (env.mem i) := by
  obtain ⟨results⟩ := r
  cases results with
  | nil => simp [processResponse]
  | cons result rest =>
    cases halts : result.alternatives with
    | nil => simp [processResponse, halts]
    | cons alt arest =>
      cases hfin : result.is_final <;> simp [processResponse, halts, hfin]

/-- A response none of whose results is final leaves the latency samples,
the transcribed duration, and the transcript file unchanged. -/
theorem processResponse_no_final (env : Env) (i : Nat) (r : SpeechResponse) (s : LoopState)
    (h : ∀ res ∈ r.results, res.is_final = false) :
    (processResponse env i r s).latency_samples = s.latency_samples ∧
    (processResponse env i r s).total_transcribed_time = s.total_transcribed_time ∧
    (processResponse env i r s).fileLines = s.fileLines := by
  obtain ⟨results⟩ := r
  cases results with
  | nil => simp [processResponse]
  | cons result rest =>
    have hfin : result.is_final = false := h result (by simp)
    cases halts : result.alternatives with
    | nil => simp [processResponse, halts]
    | cons alt arest => simp [processResponse, halts, hfin]

/-- Over a run of responses none of whose results is final, the latency
samples, transcribed duration, and transcript file are unchanged. -/
theorem runLoop_no_final (env : Env) :
    ∀ (rs : List SpeechResponse) (i : Nat) (s : LoopState),
      (∀ r ∈ rs, ∀ res ∈ r.results, res.is_final = false) →
      (runLoop env rs i s).latency_samples = s.latency_samples ∧
      (runLoop env rs i s).total_transcribed_time = s.total_transcribed_time ∧
      (runLoop env rs i s).fileLines = s.fileLines := by
  intro rs
  induction rs with
  | nil => intro i s _; simp [runLoop]
  | cons r rs' ih =>
    intro i s h
    have hstep := processResponse_no_final env i r s (h r (by simp))
    have htail := ih (i + 1) (processResponse env i r s)
      (fun r' hr' => h r' (by simp [hr']))
    refine ⟨?_, ?_, ?_⟩
    · rw [show runLoop env (r :: rs') i s
          = runLoop env rs' (i + 1) (processResponse env i r s) from rfl,
        htail.1, hstep.1]
    · rw [show runLoop env (r :: rs') i s
          = runLoop env rs' (i + 1) (processResponse env i r s) from rfl,
        htail.2.1, hstep.2.1]
    · rw [show runLoop env (r :: rs') i s
          = runLoop env rs' (i + 1) (processResponse env i r s) from rfl,
        htail.2.2, hstep.2.2]

/-! ### Claims C4-C10 -/

/-- C4: a `KeyboardInterrupt` after `k` responses is caught at the loop
boundary; the session still ends with the transcript lines and metrics
summary computed from the partially accumulated state, and — given that at
least one final result (of nonzero duration) was processed — the average
latency and the real-time factor come from the non-placeholder branches,
reflecting the partial progress. -/
theorem c4_interrupt_partial_metrics (env : Env) (responses : List SpeechResponse)
    (k : Nat) (prior : List String)
    (hlat : (runLoop env (responses.take k) 0 initState).latency_samples ≠ [])
    (htot : (runLoop env (responses.take k) 0 initState).total_transcribed_time ≠ 0) :
    listen_print_loop env responses (Option.some k) prior
      = ((runLoop env (responses.take k) 0 initState).fileLines,
         finalize env (runLoop env (responses.take k) 0 initState)) ∧
    (finalize env (runLoop env (responses.take k) 0 initState)).avg_latency
      = pyRound2 ((runLoop env (responses.take k) 0 initState).latency_samples.sum
          / (runLoop env (responses.take k) 0 initState).latency_samples.length) ∧
    (finalize env (runLoop env (responses.take k) 0 initState)).real_time_factor
      = pyRound2 ((env.endTime - env.sessionStart)
          / (runLoop env (responses.take k) 0 initState).total_transcribed_time) := by
  refine ⟨rfl, ?_, ?_⟩
  · simp [finalize, List.isEmpty_iff, hlat]
  · simp [finalize, htot]

/-- Witness for C4: interrupting after the single final response of the
fixture session yields average latency `round(3, 2)` and real-time factor
`round(10/2, 2)` in the metrics summary. -/
theorem c4_witness :
    (listen_print_loop envW [respFinal] (Option.some 1) []).2.avg_latency = pyRound2 3 ∧
    (listen_print_loop envW [respFinal] (Option.some 1) []).2.real_time_factor
      = pyRound2 5 := by
  have hs : runLoop envW ([respFinal].take 1) 0 initState
      = { cpu_snapshots := [10], ram_snapshots := [20], latency_samples := [3]
        , peak_memory := 50, total_transcribed_time := 2, fileLines := ["hello"] } := by
    norm_num [runLoop, processResponse, envW, respFinal, initState, max_def]
  have h := c4_interrupt_partial_metrics envW [respFinal] 1 []
      (by rw [hs]; simp) (by rw [hs]; norm_num)
  constructor
  · rw [show (listen_print_loop envW [respFinal] (Option.some 1) []).2
        = finalize envW (runLoop envW ([respFinal].take 1) 0 initState) from
        congrArg Prod.snd h.1, h.2.1, hs]
    simp
  · rw [show (listen_print_loop envW [respFinal] (Option.some 1) []).2
        = finalize envW (runLoop envW ([respFinal].take 1) 0 initState) from
        congrArg Prod.snd h.1, h.2.2, hs]
    norm_num [envW]

/-- C5: whenever the cumulative transcribed duration is zero at loop exit,
the real-time factor written to the metrics file is 0: the Python
truthiness guard `... if total_transcribed_time else 0` prevents the
division from ever being taken on a zero denominator. -/
theorem c5_rtf_zero_when_no_duration (env : Env) (responses : List SpeechResponse)
    (intr : Option Nat) (prior : List String)
    (h : (runLoop env
        (match intr with
          | Option.none => responses
          | Option.some k => responses.take k) 0 initState).total_transcribed_time = 0) :
    (listen_print_loop env responses intr prior).2.real_time_factor = 0 := by
  cases intr <;> simp_all [listen_print_loop, finalize, pyRound2_zero]

/-- Witness for C5: a session with no responses has zero transcribed
duration and real-time factor 0. -/
theorem c5_witness :
    (listen_print_loop envW [] Option.none []).2.real_time_factor = 0 :=
  c5_rtf_zero_when_no_duration envW [] Option.none [] rfl

/-- C6: a processed final result appends the latency sample
`(now − session_start) − result_end_time`; in particular, with the response
processed 5 s of wall clock after session start and end timestamp 2 s, the
sample is 3 s. -/
theorem c6_latency_formula (env : Env) (i : Nat) (r : SpeechResponse) (s : LoopState)
    (result : SpeechResult) (rest : List SpeechResult)
    (alt : SpeechAlt) (arest : List SpeechAlt)
    (hres : r.results = result :: rest) (halt : result.alternatives = alt :: arest)
    (hfin : result.is_final = true) :
    (processResponse env i r s).latency_samples
      = s.latency_samples ++ [env.now i - env.sessionStart - result.result_end_time] ∧
    (env.now i - env.sessionStart = 5 → result.result_end_time = 2 →
      (processResponse env i r s).latency_samples = s.latency_samples ++ [(3 : ℚ)]) := by
  have hm := processResponse_final env i r s result rest alt arest hres halt hfin
  constructor
  · rw [hm]
  · intro h5 h2
    rw [hm]
    simp only [List.append_cancel_left_eq, List.cons.injEq, and_true]
    rw [h2]
    linarith

/-- Witness for C6: the fixture final response processed at `now = 105`
with session start 100 and end timestamp 2 records latency 3. -/
theorem c6_witness :
    (processResponse envW 0 respFinal initState).latency_samples = [(3 : ℚ)] := by
  have h := (c6_latency_formula envW 0 respFinal initState
      { alternatives := [{ transcript := "hello" }]
      , is_final := true, result_end_time := 2 }
      [] { transcript := "hello" } [] rfl rfl rfl).2 (by norm_num [envW]) rfl
  simpa [initState] using h

/-- C7: every response — including ones subsequently skipped — appends one
CPU sample and one RAM sample and updates the running peak memory; and a
response with no results, or whose first result has no alternatives, leaves
the latency samples, the transcribed duration, and the transcript file
untouched. -/
theorem c7_sampling_and_skip (env : Env) (i : Nat) (r : SpeechResponse) (s : LoopState) :
    ((processResponse env i r s).cpu_snapshots = s.cpu_snapshots ++ [env.cpu i] ∧
     (processResponse env i r s).ram_snapshots = s.ram_snapshots ++ [env.ram i] ∧
     (processResponse env i r s).peak_memory = max s.peak_memory (env.mem i)) ∧
    ((r.results = [] ∨
        ∃ result rest, r.results = result :: rest ∧ result.alternatives = []) →
      (processResponse env i r s).latency_samples = s.latency_samples ∧
      (processResponse env i r s).total_transcribed_time = s.total_transcribed_time ∧
      (processResponse env i r s).fileLines = s.fileLines) := by
  refine ⟨processResponse_samples env i r s, fun h => ?_⟩
  rw [processResponse_skip env i r s h]
  exact ⟨rfl, rfl, rfl⟩

/-- Witness for C7: a response with no results still contributes its CPU
sample, and writes no transcript line. -/
theorem c7_witness :
    (processResponse envW 0 respEmpty initState).cpu_snapshots = [(10 : ℚ)] ∧
    (processResponse envW 0 respEmpty initState).fileLines = [] := by
  have h := c7_sampling_and_skip envW 0 respEmpty initState
  refine ⟨?_, (h.2 (Or.inl rfl)).2.2⟩
  rw [h.1.1]
  norm_num [initState, envW]

/-- C8: if every result of every response is interim (`is_final = false`),
the transcript file ends the session empty and no latency sample is ever
recorded: interim text is never persisted. -/
theorem c8_interim_never_persisted (env : Env) (responses : List SpeechResponse)
    (prior : List String)
    (h : ∀ r ∈ responses, ∀ res ∈ r.results, res.is_final = false) :
    (listen_print_loop env responses Option.none prior).1 = [] ∧
    (runLoop env responses 0 initState).latency_samples.length = 0 := by
  have hr := runLoop_no_final env responses 0 initState h
  constructor
  · rw [show (listen_print_loop env responses Option.none prior).1
        = (runLoop env responses 0 initState).fileLines from rfl, hr.2.2]
    rfl
  · rw [hr.1]
    rfl

/-- Witness for C8: two interim-only responses write no transcript line
(even over a non-empty prior file) and record no latency sample. -/
theorem c8_witness :
    (listen_print_loop envW [respInterim, respInterim] Option.none ["old"]).1 = [] ∧
    (runLoop envW [respInterim, respInterim] 0 initState).latency_samples.length = 0 :=
  c8_interim_never_persisted envW [respInterim, respInterim] ["old"] (by decide)

/-- C9: the metrics record holds exactly the six documented keys, in source
order; each value is `round(·, 2)` of its defining expression, each average
is the arithmetic mean of its collected samples, and each average is 0 when
no samples were collected. -/
theorem c9_metrics_file_shape (env : Env) (s : LoopState) :
    (summaryPairs (finalize env s)).map Prod.fst
      = ["processing_time", "real_time_factor", "avg_latency",
         "peak_memory_mb", "avg_cpu_percent", "avg_ram_percent"] ∧
    (finalize env s).processing_time = pyRound2 (env.endTime - env.sessionStart) ∧
    (finalize env s).real_time_factor
      = pyRound2 (if s.total_transcribed_time = 0 then 0
          else (env.endTime - env.sessionStart) / s.total_transcribed_time) ∧
    (finalize env s).avg_latency
      = pyRound2 (if s.latency_samples.isEmpty then 0
          else s.latency_samples.sum / s.latency_samples.length) ∧
    (finalize env s).avg_cpu_percent
      = pyRound2 (if s.cpu_snapshots.isEmpty then 0
          else s.cpu_snapshots.sum / s.cpu_snapshots.length) ∧
    (finalize env s).avg_ram_percent
      = pyRound2 (if s.ram_snapshots.isEmpty then 0
          else s.ram_snapshots.sum / s.ram_snapshots.length) ∧
    (finalize env s).peak_memory_mb = pyRound2 s.peak_memory ∧
    (s.latency_samples = [] → (finalize env s).avg_latency = 0) ∧
    (s.cpu_snapshots = [] → (finalize env s).avg_cpu_percent = 0) ∧
    (s.ram_snapshots = [] → (finalize env s).avg_ram_percent = 0) := by
  refine ⟨rfl, rfl, rfl, rfl, rfl, rfl, rfl, ?_, ?_, ?_⟩ <;>
    intro h <;> simp [finalize, h, pyRound2_zero]

/-- Witness for C9: with no latency samples collected, `avg_latency` is 0. -/
theorem c9_witness : (finalize envW initState).avg_latency = 0 :=
  (c9_metrics_file_shape envW initState).2.2.2.2.2.2.2.1 rfl

/-- C10: on an empty response sequence the transcript file still ends the
session truncated to empty (whatever it held before), and the metrics
record has real-time factor, average latency, peak memory, and both
resource averages all 0, with processing time `round(elapsed, 2)`. -/
theorem c10_empty_responses (env : Env) (prior : List String) :
    listen_print_loop env [] Option.none prior
      = ([], { processing_time := pyRound2 (env.endTime - env.sessionStart)
             , real_time_factor := 0, avg_latency := 0, peak_memory_mb := 0
             , avg_cpu_percent := 0, avg_ram_percent := 0 }) := by
  simp [listen_print_loop, runLoop, finalize, initState, pyRound2_zero]

end StreamingSTT
